import Mathlib

/-!
# Shallow embedding of the mcp-cache engine (`src/CacheManager.ts`)

This file models, in Lean, the parts of the cache engine that the
specification's claims talk about: the entry map (a JS `Map`, i.e. an
insertion-ordered association list), the doubly linked LRU index
(`accessOrder` / `lruHead` / `lruTail`), the statistics record, the
capacity-enforcement path of `set`, the read path of `get` with its
freshness checks, version-aware key handling (`createVersionedKey`,
`getLatestVersionEntry`, `cleanupOldVersions`), the single-flight /
negative-cache loader (`getWithProtection`, `loadDataWithMutex`,
`cacheNullValue`), and the non-reentrant `AsyncMutex`.

Modelling conventions:
* JS millisecond timestamps and byte counts are `Int` (JS numbers are
  signed and the engine's arithmetic can drive `stats.memoryUsage`
  negative); entry counts are `Nat`.
* `Date.now()` is an explicit `now : Int` parameter (the spec's
  injectable clock); all reads of the clock inside one operation see the
  same value, matching a run inside one millisecond.
* The file system is a parameter `fh : FS` mapping a path to its mtime,
  `none` meaning `fs.stat` fails.
* Cached values are strings (`typeof value === 'string'` branch of the
  size estimator); no modelled configuration enables encryption, so
  `shouldEncrypt` is `false` and `dataEncryptor` is absent, exactly as in
  the engine when `encryptionEnabled` is false.
* `hitRate` and `avgAccessTime` are derived floating-point statistics;
  floats are not shallowly embeddable and no claim mentions them, so the
  calls to `updateHitRate` / `updateAccessTime` are noted in comments and
  the two fields are omitted from `CacheStats`.
* `fileWatchers` and `dependencyGraph` are only written by the
  asynchronous watcher registration, which no claim observes; they are
  omitted from the state.
* A pending single-flight promise is modelled by the outcome it will
  resolve to (`LoaderResult`), which is what an awaiting caller receives.
-/

set_option maxRecDepth 100000

namespace McpCache

/-- JS `String.prototype.startsWith`, on UTF-16-free ASCII data. -/
def strStartsWith (s p : String) : Bool := p.data.isPrefixOf s.data

/-- JS `String.prototype.endsWith`. -/
def strEndsWith (s p : String) : Bool := p.data.isSuffixOf s.data

/-- Code-unit-wise lexicographic `<` on char lists, as JS string comparison. -/
def charListLt : List Char → List Char → Bool
  | [], [] => false
  | [], _ :: _ => true
  | _ :: _, [] => false
  | a :: as, b :: bs =>
    if a.val < b.val then true
    else if b.val < a.val then false
    else charListLt as bs

/-- JS `a < b` on strings (lexicographic by UTF-16 code unit). -/
def strLt (a b : String) : Bool := charListLt a.data b.data

/-- Insert into a list sorted by the JS default string comparator. -/
def sortStringsInsert (x : String) : List String → List String
  | [] => [x]
  | y :: ys => if strLt y x then y :: sortStringsInsert x ys else x :: y :: ys

/-- JS `Array.prototype.sort()` with the default (lexicographic string)
comparator, as a simple insertion sort. -/
def sortStrings : List String → List String
  | [] => []
  | x :: xs => sortStringsInsert x (sortStrings xs)

/-! ## JS `Map` as an insertion-ordered association list -/

/-- `Map.prototype.get`: first binding of the key, if any. -/
def jsMapGet {α : Type} (l : List (String × α)) (k : String) : Option α :=
  match l.find? (fun p => p.1 = k) with
  | some p => some p.2
  | none => none

/-- `Map.prototype.set`: update in place if present, else append. -/
def jsMapSet {α : Type} (l : List (String × α)) (k : String) (v : α) :
    List (String × α) :=
  if l.any (fun p => p.1 = k) then
    l.map (fun p => if p.1 = k then (k, v) else p)
  else l ++ [(k, v)]

/-- `Map.prototype.delete` (ignoring the returned boolean). -/
def jsMapDelete {α : Type} (l : List (String × α)) (k : String) :
    List (String × α) :=
  l.filter (fun p => ¬ p.1 = k)

/-- `Map.prototype.has`. -/
def jsMapHas {α : Type} (l : List (String × α)) (k : String) : Bool :=
  (jsMapGet l k).isSome

/-! ## Data model (`src/types.ts` plus the fields `CacheManager` adds) -/

/-- A cache entry (`CacheEntry`); `ttl` is optional in `types.ts`, and
`isExpired` falls back to the configured default when it is absent. -/
structure CacheEntry where
  value : String
  created : Int
  lastAccessed : Int
  ttl : Option Int
  size : Int
  encrypted : Bool
  version : Option String := none
  hash : Option String := none
  dependencies : Option (List String) := none
  sourceFile : Option String := none
  fileTimestamp : Option Int := none
deriving DecidableEq

/-- `CacheStats` without the derived float fields (`hitRate`,
`avgAccessTime`), which no claim mentions. -/
structure CacheStats where
  totalEntries : Nat
  memoryUsage : Int
  hits : Nat
  misses : Nat
deriving DecidableEq

/-- One node of the `accessOrder` doubly linked list. -/
structure LRUNode where
  prev : Option String := none
  next : Option String := none
deriving DecidableEq

/-- `AccessController` configuration (`encryption.ts`); the regex
`restrictedPatterns` are not exercised by any claim and are omitted. -/
structure AccessControlConfig where
  allowedOperations : List String := ["get", "set", "delete", "clear"]
  restrictedKeys : List String := []
deriving DecidableEq

/-- Engine configuration with the constructor's defaults. -/
structure CacheConfig where
  maxEntries : Nat := 1000
  maxMemory : Int := 100 * 1024 * 1024
  defaultTTL : Int := 3600
  versionAwareMode : Bool := false
  accessControl : Option AccessControlConfig := none
deriving DecidableEq

/-- Per-key hot-key statistics. -/
structure HotKeyStat where
  accessCount : Nat
  lastAccessed : Int
deriving DecidableEq

/-- The engine's error taxonomy, restricted to what the modelled paths
throw.  `js` is a plain JavaScript `Error` (what `validateAccess`
throws); `cacheErr` is a `CacheError` with its code. -/
inductive CacheErrorCode where
  | UNKNOWN_ERROR
  | INVALID_INPUT
  | MEMORY_LIMIT_EXCEEDED
deriving DecidableEq

inductive ThrownError where
  | js (msg : String)
  | cacheErr (code : CacheErrorCode)
deriving DecidableEq

/-- What a single-flight loader invocation produces: a value, JS
`null`/`undefined` (`loaded none`), or a thrown error. -/
inductive LoaderResult where
  | loaded (v : Option String)
  | failed (msg : String)
deriving DecidableEq

/-- The engine state: the fields of `CacheManager` that the claims
observe.  `nullValueTTL` is the field initialised to 300 seconds. -/
structure EngineState where
  cache : List (String × CacheEntry) := []
  accessOrder : List (String × LRUNode) := []
  lruHead : Option String := none
  lruTail : Option String := none
  stats : CacheStats := ⟨0, 0, 0, 0⟩
  config : CacheConfig := {}
  hotKeys : List (String × HotKeyStat) := []
  pendingRequests : List (String × LoaderResult) := []
  nullValueCache : List (String × Int) := []
  nullValueTTL : Int := 300
deriving DecidableEq

/-- File-system oracle: mtime in ms, `none` when `fs.stat` fails. -/
def FS : Type := String → Option Int

/-- `AccessController.validateAccess` (`encryption.ts`): returns the
message of the plain `Error` it throws, or `none` when access is
granted.  `isOperationAllowed` checks the allowed-operations set;
`isKeyRestricted` the restricted-keys set. -/
def validateAccessCheck (ac : Option AccessControlConfig) (op : String)
    (key : Option String) : Option String :=
  match ac with
  | none => none
  | some c =>
    if ¬ c.allowedOperations.contains op then some ("operation denied: " ++ op)
    else
      match key with
      | some k => if c.restrictedKeys.contains k then some ("access denied: " ++ k) else none
      | none => none

/-! ## LRU chain operations (`CacheManager` lines 519–589) -/

/-- `addToLRUChain`: registers an *unlinked* node and only initialises
`lruHead`/`lruTail` when the chain was empty.  (Linking is left to the
subsequent `moveToHead` call in `set`.) -/
def addToLRUChain (key : String) (s : EngineState) : EngineState :=
  let s := { s with accessOrder := jsMapSet s.accessOrder key {} }
  if s.lruHead.isNone then { s with lruHead := some key, lruTail := some key }
  else s

/-- `removeFromLRUChain`: unlink a node, patching neighbours and the
head/tail registers exactly as the source does. -/
def removeFromLRUChain (key : String) (s : EngineState) : EngineState :=
  match jsMapGet s.accessOrder key with
  | none => s
  | some node =>
    let prev := node.prev
    let next := node.next
    -- Update previous node's next pointer
    let s :=
      match prev with
      | some p =>
        match jsMapGet s.accessOrder p with
        | some pn => { s with accessOrder := jsMapSet s.accessOrder p { pn with next := next } }
        | none => s
      | none => { s with lruHead := next }
    -- Update next node's previous pointer
    let s :=
      match next with
      | some nx =>
        match jsMapGet s.accessOrder nx with
        | some nn => { s with accessOrder := jsMapSet s.accessOrder nx { nn with prev := prev } }
        | none => s
      | none => { s with lruTail := prev }
    { s with accessOrder := jsMapDelete s.accessOrder key }

/-- `moveToHead`: splice the node out of its current position and push it
to the head.  Note the source's `else { this.lruTail = prev }` branch
fires whenever `node.next` is `undefined` — also for a freshly added,
never-linked node — and the final `if (!this.lruTail)` then re-points the
tail at `key` itself. -/
def moveToHead (key : String) (s : EngineState) : EngineState :=
  if s.lruHead = some key then s -- Already at head
  else
    match jsMapGet s.accessOrder key with
    | none => s
    | some node =>
      let prev := node.prev
      let next := node.next
      let s :=
        match prev with
        | some p =>
          match jsMapGet s.accessOrder p with
          | some pn => { s with accessOrder := jsMapSet s.accessOrder p { pn with next := next } }
          | none => s
        | none => s
      let s :=
        match next with
        | some nx =>
          match jsMapGet s.accessOrder nx with
          | some nn => { s with accessOrder := jsMapSet s.accessOrder nx { nn with prev := prev } }
          | none => s
        | none => { s with lruTail := prev } -- This was the tail
      -- Move to head
      let s := { s with accessOrder := jsMapSet s.accessOrder key { prev := none, next := s.lruHead } }
      let s :=
        match s.lruHead with
        | some h =>
          match jsMapGet s.accessOrder h with
          | some hn => { s with accessOrder := jsMapSet s.accessOrder h { hn with prev := some key } }
          | none => s
        | none => s
      let s := { s with lruHead := some key }
      -- If this was the only element, it's also the tail
      if s.lruTail.isNone then { s with lruTail := some key } else s

/-! ## Internal helpers of the engine -/

/-- `isExpired`: `Date.now() > entry.created + (entry.ttl ?? defaultTTL) * 1000`. -/
def isExpired (now : Int) (cfg : CacheConfig) (e : CacheEntry) : Bool :=
  now > e.created + (e.ttl.getD cfg.defaultTTL) * 1000

/-- `approximateMemoryUsage` for string values: `key.length*2 +
value.length*2 + 100`.  `set` always takes this path because
`shouldSkipPreciseMemoryCalculation()` is `memoryUpdateBatchSize > 50`
and the field is 100 outside `setMany`. -/
def approximateMemoryUsage (key value : String) : Int :=
  (key.length : Int) * 2 + (value.length : Int) * 2 + 100

/-- `needsEviction(memoryIncrease, isUpdate)`. -/
def needsEviction (memoryIncrease : Int) (isUpdate : Bool) (s : EngineState) : Bool :=
  (s.stats.memoryUsage + memoryIncrease > s.config.maxMemory) ||
    (!isUpdate && s.cache.length ≥ s.config.maxEntries)

/-- `deleteInternal`: remove an entry, fix the size accounting, unlink
the LRU node; no access control and no mutex. -/
def deleteInternal (key : String) (s : EngineState) : Bool × EngineState :=
  match jsMapGet s.cache key with
  | some entry =>
    let s := { s with stats := { s.stats with memoryUsage := s.stats.memoryUsage - entry.size } }
    let s := { s with cache := jsMapDelete s.cache key }
    let s := removeFromLRUChain key s
    let s := { s with stats := { s.stats with totalEntries := s.cache.length } }
    (true, s)
  | none => (false, s)

/-- The collection loop of `enforceMemoryLimitOptimized`: walk the chain
from `lruTail` along `prev` pointers gathering keys while the limits are
still violated, with the source's early-`break` probe that peeks at the
entry of the *next* candidate, and the `batchSize * 3 = 30` cap (the
fuel).  The accounting fields do not change during collection (deletion
happens afterwards). -/
def enforceCollect (s : EngineState) (requiredSize : Int) :
    Nat → Option String → List String → List String
  | _, none, acc => acc
  | 0, some _, acc => acc
  | fuel + 1, some current, acc =>
    if ((s.stats.memoryUsage + requiredSize > s.config.maxMemory) ||
        (s.cache.length ≥ s.config.maxEntries)) && acc.length < 30 then
      let acc := acc ++ [current]
      let node := jsMapGet s.accessOrder current
      let current' := node.bind (fun n => n.prev)
      -- 估算删除后的内存 — note the probe reads the entry at the *advanced* cursor
      let probe := current'.bind (fun c => jsMapGet s.cache c)
      match probe with
      | some entry =>
        if s.stats.memoryUsage - entry.size + requiredSize ≤ s.config.maxMemory ∧
            (s.cache.length : Int) - (acc.length : Int) < (s.config.maxEntries : Int) then
          acc
        else
          match current' with
          | some c => enforceCollect s requiredSize fuel (some c) acc
          | none => acc
      | none =>
        match current' with
        | some c => enforceCollect s requiredSize fuel (some c) acc
        | none => acc
    else acc

/-- `enforceMemoryLimitOptimized(requiredSize)`: collect victims from the
tail, delete them in a batch, then throw `MEMORY_LIMIT_EXCEEDED` if the
memory limit still cannot be met.  Deletions performed before the throw
are *not* rolled back. -/
def enforceMemoryLimitOptimized (requiredSize : Int) (s : EngineState) :
    Option CacheErrorCode × EngineState :=
  let keysToDelete := enforceCollect s requiredSize 30 s.lruTail []
  let s := keysToDelete.foldl (fun st k => (deleteInternal k st).2) s
  if s.stats.memoryUsage + requiredSize > s.config.maxMemory then
    (some .MEMORY_LIMIT_EXCEEDED, s)
  else (none, s)

/-! ## Version & dependency helpers (`CacheManager` lines 666–934) -/

/-- `createVersionedKey`. -/
def createVersionedKey (baseKey version : String) : String :=
  baseKey ++ "@" ++ version

/-- `generateHash` computes a truncated sha256 hex digest; the digest
function itself is not shallowly embeddable and no claim depends on the
digest value, only on whether `entry.hash` is set, so the digest is
abstracted by the serialized content itself. -/
def generateHash (value : String) : String := value

/-- `getFileTimestamp`: `fs.stat(path).mtime`, with `Date.now()` as the
fallback when the stat fails. -/
def getFileTimestamp (fh : FS) (now : Int) (path : String) : Int :=
  match fh path with
  | some t => t
  | none => now

/-- `validateFileTimestamp`: entries without `sourceFile`/`fileTimestamp`
are valid; otherwise valid iff the stat succeeds and
`mtime <= entry.fileTimestamp`. -/
def validateFileTimestamp (fh : FS) (e : CacheEntry) : Bool :=
  match e.sourceFile, e.fileTimestamp with
  | some f, some ts =>
    match fh f with
    | some mtime => mtime ≤ ts
    | none => false
  | _, _ => true

/-- `checkDependencyChanges`: some dependency stats to a mtime later than
`entry.created`, or fails to stat at all. -/
def checkDependencyChanges (fh : FS) (e : CacheEntry) : Bool :=
  match e.dependencies with
  | none => false
  | some deps =>
    deps.any (fun d =>
      match fh d with
      | some mtime => mtime > e.created
      | none => true)

/-- The scan of `getLatestVersionEntry`: first entry (in map insertion
order) whose key starts with `baseKey ++ "@"` and whose `created` is
strictly greater than every earlier candidate's (`latestCreated` starts
at `0`, so the comparison is strict `>` against `0` initially too). -/
def latestVersionScan (baseKey : String) (cache : List (String × CacheEntry)) :
    Option (String × CacheEntry) :=
  cache.foldl
    (fun best p =>
      let bestCreated := match best with
        | some q => q.2.created
        | none => (0 : Int)
      if strStartsWith p.1 (baseKey ++ "@") ∧ p.2.created > bestCreated then some p
      else best)
    none

/-- `cleanupOldVersions(baseKey, currentVersion)`: collect the keys with
prefix `baseKey@` that do not end in `@currentVersion`; when more than
two exist, sort them with the default JS comparator and
`slice(0, -2)`-delete all but the (lexicographically) last two.  The
wrapper `cleanupOldVersionsAsync` fires the promise during `set`, and the
body contains no `await`, so its effects land synchronously before `set`
continues. -/
def cleanupOldVersions (baseKey currentVersion : String) (s : EngineState) :
    EngineState :=
  let versionPat := baseKey ++ "@"
  let keysToDelete :=
    (s.cache.map Prod.fst).filter
      (fun k => strStartsWith k versionPat && !(strEndsWith k ("@" ++ currentVersion)))
  if keysToDelete.length > 2 then
    ((sortStrings keysToDelete).take (keysToDelete.length - 2)).foldl
      (fun st k => (deleteInternal k st).2) s
  else s

/-- The candidate list of `cleanupOldVersions` (its `keysToDelete`):
cached keys with prefix `baseKey@` whose key does not end in
`@currentVersion`. -/
def oldVersionKeys (b v : String) (s : EngineState) : List String :=
  (s.cache.map Prod.fst).filter
    (fun k => strStartsWith k (b ++ "@") && !(strEndsWith k ("@" ++ v)))

/-- The keys `cleanupOldVersions` deletes: when more than two candidates
exist, all but the (lexicographically) last two of the sorted candidate
list (`keysToDelete.sort().slice(0, -2)`); otherwise nothing. -/
def oldVersionDoomed (b v : String) (s : EngineState) : List String :=
  if (oldVersionKeys b v s).length > 2 then
    (sortStrings (oldVersionKeys b v s)).take ((oldVersionKeys b v s).length - 2)
  else []

/-- `updateHotKeyStats`: bump the per-base-key counter, then prune
counters idle for 24 h once more than 1000 keys are tracked. -/
def updateHotKeyStats (key : String) (now : Int) (s : EngineState) : EngineState :=
  let stat := (jsMapGet s.hotKeys key).getD { accessCount := 0, lastAccessed := now }
  let stat := { stat with accessCount := stat.accessCount + 1, lastAccessed := now }
  let s := { s with hotKeys := jsMapSet s.hotKeys key stat }
  if s.hotKeys.length > 1000 then
    let cutoff := now - 24 * 3600000
    { s with hotKeys := s.hotKeys.filter (fun p => ¬ p.2.lastAccessed < cutoff) }
  else s

/-! ## `set` and `get` -/

/-- The options argument of `set`. -/
structure SetOptions where
  version : Option String := none
  dependencies : Option (List String) := none
  sourceFile : Option String := none
deriving DecidableEq

/-- The options argument of `get`; `validateDependencies` defaults to
`true` when the destructuring runs. -/
structure GetOptions where
  version : Option String := none
  validateDependencies : Option Bool := none
deriving DecidableEq

/-- Outcome of a `get`-shaped call.  `blocked` marks the paths where the
source executes `await this.delete(...)` (or, in batch operations,
`await this.get/this.delete`) while already holding the engine's
`AsyncMutex`: the nested `runExclusive` enqueues a waiter that only
`unlock()` can resume, and the only `unlock()` is the outer call's own
epilogue, which is itself suspended on the nested call — the promise
never settles (see `batchRun`/`expiredGetRun` below for the operational
proof). -/
inductive GetOutcome where
  | value (v : String)
  | absent
  | thrown (e : ThrownError)
  | blocked
deriving DecidableEq

/-- `set(key, value, ttl?, options?)` under the engine mutex.  Returns
the thrown error (if any) and the state as mutated up to the throw —
mutations preceding a throw persist on the live object.  The `catch`
wrapper rethrows `CacheError`s and wraps anything else (including the
plain `Error` from `validateAccess`) in `UNKNOWN_ERROR`. -/
def set (fh : FS) (now : Int) (key value : String) (ttl : Option Int)
    (opts : Option SetOptions) (s : EngineState) :
    Option ThrownError × EngineState :=
  match validateAccessCheck s.config.accessControl "set" (some key) with
  | some _ => (some (.cacheErr .UNKNOWN_ERROR), s)
  | none =>
  if key = "" then (some (.cacheErr .INVALID_INPUT), s)
  else
    -- value === undefined cannot occur for string-valued entries
    -- version-aware handling: versioned key, async watcher setup (not
    -- modelled: it only writes fileWatchers/dependencyGraph), and the
    -- synchronous effects of cleanupOldVersionsAsync
    let verInfo : Option String :=
      if s.config.versionAwareMode then
        match opts with
        | some o => some (o.version.getD (toString now))
        | none => none
      else none
    let finalKey :=
      match verInfo with
      | some timestamp => createVersionedKey key timestamp
      | none => key
    let s :=
      match verInfo with
      | some timestamp => cleanupOldVersions key timestamp s
      | none => s
    -- encryption disabled in every modelled configuration: shouldEncrypt
    -- is false and the stored value is the plaintext
    let size := approximateMemoryUsage finalKey value
    let baseEntry : CacheEntry :=
      { value := value
        created := now
        lastAccessed := now
        ttl := some (ttl.getD s.config.defaultTTL)
        size := size
        encrypted := false }
    let entry : CacheEntry :=
      match verInfo, opts with
      | some timestamp, some o =>
        let e := { baseEntry with
          version := some timestamp
          hash := some (generateHash value)
          dependencies := some (o.dependencies.getD []) }
        match o.sourceFile with
        | some f => { e with sourceFile := some f,
                             fileTimestamp := some (getFileTimestamp fh now f) }
        | none => e
      | _, _ => baseEntry
    let isUpdate := jsMapHas s.cache finalKey
    let oldSize : Int :=
      match jsMapGet s.cache finalKey with
      | some old => old.size
      | none => 0
    let s :=
      if isUpdate then
        { s with stats := { s.stats with memoryUsage := s.stats.memoryUsage - oldSize } }
      else s
    let effectiveMemoryIncrease := if isUpdate then size - oldSize else size
    let afterEvict : Option CacheErrorCode × EngineState :=
      if needsEviction effectiveMemoryIncrease isUpdate s then
        enforceMemoryLimitOptimized effectiveMemoryIncrease s
      else (none, s)
    match afterEvict with
    | (some _, s) => (some (.cacheErr .MEMORY_LIMIT_EXCEEDED), s)
    | (none, s) =>
      let s := if isUpdate then s else addToLRUChain finalKey s
      let s := { s with cache := jsMapSet s.cache finalKey entry }
      let s := moveToHead finalKey s
      let s := { s with stats := { s.stats with totalEntries := s.cache.length } }
      let s := { s with stats := { s.stats with memoryUsage := s.stats.memoryUsage + size } }
      -- updateAccessTime: derived float statistic, not modelled
      (none, s)

/-- The tail of `get` once the effective key is resolved: entry lookup,
freshness checks (each failure runs `await this.delete(finalKey)` inside
the held mutex — `blocked`), then the hit bookkeeping. -/
def getResolved (fh : FS) (now : Int) (baseKey finalKey : String)
    (shouldValidate : Bool) (s : EngineState) : GetOutcome × EngineState :=
  match jsMapGet s.cache finalKey with
  | none =>
    -- miss: misses++, updateHitRate (derived, not modelled)
    (.absent, { s with stats := { s.stats with misses := s.stats.misses + 1 } })
  | some entry =>
    if isExpired now s.config entry then
      (.blocked, s) -- await this.delete(finalKey) : nested mutex acquisition
    else if !(validateFileTimestamp fh entry) then
      (.blocked, s) -- await this.delete(finalKey)
    else if shouldValidate && entry.dependencies.isSome &&
        checkDependencyChanges fh entry then
      (.blocked, s) -- await this.delete(finalKey)
    else
      -- hit: touch, move to head, hits++, hot-key counter on the base key
      let s := { s with cache := jsMapSet s.cache finalKey { entry with lastAccessed := now } }
      let s := moveToHead finalKey s
      let s := { s with stats := { s.stats with hits := s.stats.hits + 1 } }
      let s := updateHotKeyStats baseKey now s
      -- entry.encrypted && this.dataEncryptor: encryption is disabled in
      -- every modelled configuration, so the stored value is returned
      (.value entry.value, s)

/-- `getLatestVersionEntry(baseKey)`: pick the matching entry with the
largest `created`; re-validate its dependencies (a change runs
`await this.delete(latestKey)` under the held mutex — `blocked`); return
the raw stored value.  No statistics, `lastAccessed` or LRU updates
happen on this path, and a fruitless scan returns `undefined` without
counting a miss. -/
def getLatestVersionEntry (fh : FS) (baseKey : String) (s : EngineState) :
    GetOutcome × EngineState :=
  match latestVersionScan baseKey s.cache with
  | some latest =>
    if latest.2.dependencies.isSome && checkDependencyChanges fh latest.2 then
      (.blocked, s) -- await this.delete(latestKey)
    else (.value latest.2.value, s)
  | none => (.absent, s)

/-- `get(key, options?)` under the engine mutex. -/
def get (fh : FS) (now : Int) (key : String) (opts : Option GetOptions)
    (s : EngineState) : GetOutcome × EngineState :=
  match validateAccessCheck s.config.accessControl "get" (some key) with
  | some msg => (.thrown (.js msg), s)
  | none =>
    if s.config.versionAwareMode then
      match opts with
      | some o =>
        let shouldValidate := o.validateDependencies.getD true
        let timestamp := o.version.getD (toString now)
        let finalKey := createVersionedKey key timestamp
        if !(jsMapHas s.cache finalKey) then getLatestVersionEntry fh key s
        else getResolved fh now key finalKey shouldValidate s
      | none => getResolved fh now key key false s
    else getResolved fh now key key false s

/-! ## Single-flight loader with negative cache
(`CacheManager` lines 1433–1569) -/

/-- `cleanupNullValueCache`: reap records whose expiry has passed
(`now >= expireTime`). -/
def cleanupNullValueCache (now : Int) (s : EngineState) : EngineState :=
  { s with nullValueCache := s.nullValueCache.filter (fun p => ¬ now ≥ p.2) }

/-- `cacheNullValue(key, ttlSeconds = nullValueTTL)`: record
`now + ttl*1000` as the key's negative-cache expiry, then sweep. -/
def cacheNullValue (key : String) (ttlSeconds : Int) (now : Int)
    (s : EngineState) : EngineState :=
  let expireTime := now + ttlSeconds * 1000
  let s := { s with nullValueCache := jsMapSet s.nullValueCache key expireTime }
  cleanupNullValueCache now s

/-- `loadDataWithMutex(key, dataLoader)` under the engine mutex: a
double-check against the map, then the loader; `null`/`undefined` goes to
the negative cache with the default TTL, a value is inserted through the
internal fast path, a thrown error goes to the negative cache with a
60-second TTL and propagates.  The third component reports whether the
loader was invoked. -/
def loadDataWithMutex (_fh : FS) (now : Int) (key : String)
    (loader : LoaderResult) (s : EngineState) :
    GetOutcome × EngineState × Bool :=
  let loadPath : EngineState → GetOutcome × EngineState × Bool := fun s =>
    match loader with
    | .failed msg =>
      -- 加载失败时也缓存空值，但TTL较短 (60 s), then rethrow
      (.thrown (.js msg), cacheNullValue key 60 now s, true)
    | .loaded none =>
      (.absent, cacheNullValue key s.nullValueTTL now s, true)
    | .loaded (some v) =>
      let size := approximateMemoryUsage key v
      let entry : CacheEntry :=
        { value := v
          created := now
          lastAccessed := now
          ttl := some s.config.defaultTTL
          size := size
          encrypted := false }
      let afterEvict : Option CacheErrorCode × EngineState :=
        if needsEviction size false s then enforceMemoryLimitOptimized size s
        else (none, s)
      match afterEvict with
      | (some _, s) =>
        -- the throw from enforceMemoryLimitOptimized lands in the same
        -- catch as a loader error: negative-cache for 60 s and rethrow
        (.thrown (.cacheErr .MEMORY_LIMIT_EXCEEDED), cacheNullValue key 60 now s, true)
      | (none, s) =>
        let s := addToLRUChain key s
        let s := { s with cache := jsMapSet s.cache key entry }
        let s := moveToHead key s
        let s := { s with stats := { s.stats with totalEntries := s.cache.length } }
        let s := { s with stats := { s.stats with memoryUsage := s.stats.memoryUsage + size } }
        (.value v, s, true)
  match jsMapGet s.cache key with
  | some existing =>
    if !(isExpired now s.config existing) then
      -- double-check hit: direct bookkeeping, skipping get's checks
      let s := { s with cache := jsMapSet s.cache key { existing with lastAccessed := now } }
      let s := moveToHead key s
      let s := { s with stats := { s.stats with hits := s.stats.hits + 1 } }
      -- decryption skipped: encryption disabled in modelled configurations
      (.value existing.value, s, false)
    else loadPath s
  | none => loadPath s

/-- The part of `getWithProtection` after the negative-cache check:
coalesce on a pending future (a waiter that sees the shared promise
reject removes the registration and rethrows), else register a new
promise, load through `loadDataWithMutex`, and deregister before
returning in either outcome. -/
def getWithProtectionLoad (fh : FS) (now : Int) (key : String)
    (loader : LoaderResult) (s : EngineState) :
    GetOutcome × EngineState × Bool :=
  match jsMapGet s.pendingRequests key with
  | some fut =>
    match fut with
    | .loaded (some v) => (.value v, s, false)
    | .loaded none => (.absent, s, false)
    | .failed msg =>
      (.thrown (.js msg), { s with pendingRequests := jsMapDelete s.pendingRequests key }, false)
  | none =>
    let s := { s with pendingRequests := jsMapSet s.pendingRequests key loader }
    let r := loadDataWithMutex fh now key loader s
    (r.1, { r.2.1 with pendingRequests := jsMapDelete r.2.1.pendingRequests key }, r.2.2)

/-- `getWithProtection(key, dataLoader, options?)`.  The `loader`
argument is the outcome the single invocation of `dataLoader` would
produce; the returned boolean says whether it was invoked.  A promise
found in `pendingRequests` is modelled by the outcome it settles with;
a registering caller stores its own promise and removes it before
returning in every outcome. -/
def getWithProtection (fh : FS) (now : Int) (key : String)
    (loader : LoaderResult) (opts : Option GetOptions) (s : EngineState) :
    GetOutcome × EngineState × Bool :=
  match get fh now key opts s with
  | (.value v, s) =>
    -- preheating-hit statistics (preheatingStats) are not modelled
    (.value v, s, false)
  | (.thrown e, s) => (.thrown e, s, false)
  | (.blocked, s) => (.blocked, s, false)
  | (.absent, s) =>
    -- 检查空值缓存
    match jsMapGet s.nullValueCache key with
    | some exp =>
      if exp ≠ 0 ∧ now < exp then (.absent, s, false)
      else getWithProtectionLoad fh now key loader s
    | none => getWithProtectionLoad fh now key loader s

/-- `n` back-to-back `getWithProtection` calls on the same key (the
sequential rendition of `n` coalescing callers); returns the final state
and the total number of loader invocations. -/
def gwpRepeat (fh : FS) (now : Int) (key : String) (loader : LoaderResult)
    (opts : Option GetOptions) : Nat → EngineState → EngineState × Nat
  | 0, s => (s, 0)
  | n + 1, s =>
    let r := getWithProtection fh now key loader opts s
    let rest := gwpRepeat fh now key loader opts n r.2.1
    (rest.1, (if r.2.2 then 1 else 0) + rest.2)

/-! ## `AsyncMutex` and the nested-acquisition deadlocks

`AsyncMutex` (`src/AsyncMutex.ts`) is not reentrant: `lock()` resolves
immediately when the mutex is free and otherwise pushes the continuation
onto `waitingQueue`, to be resumed only by a later `unlock()`.
`runExclusive(op)` is `await lock(); try { return await op() } finally
{ unlock() }`.  The machines below execute, step by step, a single call
whose `runExclusive` body awaits a *nested* call to a method that itself
calls `runExclusive` on the same mutex (`getMany`/`deleteMany` iterating
`this.get`/`this.delete`, and `get` running `await this.delete` on a
freshness failure). -/

/-- The `AsyncMutex` fields; waiters are counted (their identity does not
matter for these systems, which have a single logical task). -/
structure AsyncMutexSt where
  locked : Bool := false
  waitingQueue : Nat := 0
deriving DecidableEq

/-- `lock()`: immediate grant when free, else enqueue. The boolean says
whether the promise resolved immediately. -/
def mutexLock (m : AsyncMutexSt) : Bool × AsyncMutexSt :=
  if m.locked then (false, { m with waitingQueue := m.waitingQueue + 1 })
  else (true, { locked := true, waitingQueue := m.waitingQueue })

/-- `unlock()`: hand the mutex to the next waiter, else free it. -/
def mutexUnlock (m : AsyncMutexSt) : AsyncMutexSt :=
  if m.waitingQueue > 0 then { locked := true, waitingQueue := m.waitingQueue - 1 }
  else { locked := false, waitingQueue := 0 }

/-- Control points of a `getMany(keys)` (equally `deleteMany(keys)`)
call: acquiring the batch-wide mutex, iterating the body, suspended on
the nested `this.get(key)` / `this.delete(key)` lock, running the
`finally { unlock() }`, and returned. -/
inductive BatchPhase where
  | acquire (keys : List String)
  | body (remaining : List String)
  | innerAwait (remaining : List String)
  | release
  | done
deriving DecidableEq

structure BatchSystem where
  mutex : AsyncMutexSt
  phase : BatchPhase
deriving DecidableEq

/-- `getMany(keys)` as issued on an otherwise idle engine. -/
def getManyInit (keys : List String) : BatchSystem :=
  { mutex := {}, phase := .acquire keys }

/-- One scheduler step; `none` when no continuation is runnable. -/
def batchStep (sys : BatchSystem) : Option BatchSystem :=
  match sys.phase with
  | .acquire keys =>
    let (granted, m) := mutexLock sys.mutex
    if granted then some { mutex := m, phase := .body keys }
    else none -- queued; nothing else runs, so the grant never comes
  | .body [] => some { sys with phase := .release }
  | .body (k :: rest) =>
    -- `await this.get(key)`: get's runExclusive calls lock() on the
    -- engine mutex the batch already holds
    let (granted, m) := mutexLock sys.mutex
    if granted then some { mutex := mutexUnlock m, phase := .body rest }
      -- (dead branch: the mutex is held throughout the body)
    else some { mutex := m, phase := .innerAwait (k :: rest) }
  | .innerAwait _ => none
    -- the queued inner lock() resolves only via unlock(); the only
    -- unlock() is the batch's own finally, which runs after the body —
    -- and the body is suspended on this very await
  | .release => some { mutex := mutexUnlock sys.mutex, phase := .done }
  | .done => none

/-- Run the scheduler `n` steps (staying put once nothing is runnable). -/
def batchRun : Nat → BatchSystem → BatchSystem
  | 0, sys => sys
  | n + 1, sys =>
    match batchStep sys with
    | some t => batchRun n t
    | none => sys

/-- Control points of a `get(key)` call whose entry fails a freshness
check: acquire the mutex, inspect the entry, suspend on the nested
`await this.delete(finalKey)` lock (the freshness-failure branch), or
finish normally when the check passes. -/
inductive ExpiredGetPhase where
  | acquire (entryStale : Bool)
  | inspect (entryStale : Bool)
  | innerAwait
  | release
  | done
deriving DecidableEq

structure ExpiredGetSystem where
  mutex : AsyncMutexSt
  phase : ExpiredGetPhase
deriving DecidableEq

/-- A `get` call on an otherwise idle engine; `entryStale` says whether
the freshness checks fail for the entry it finds. -/
def expiredGetInit (entryStale : Bool) : ExpiredGetSystem :=
  { mutex := {}, phase := .acquire entryStale }

def expiredGetStep (sys : ExpiredGetSystem) : Option ExpiredGetSystem :=
  match sys.phase with
  | .acquire stale =>
    let (granted, m) := mutexLock sys.mutex
    if granted then some { mutex := m, phase := .inspect stale }
    else none
  | .inspect stale =>
    if stale then
      -- `await this.delete(finalKey)`: delete's runExclusive calls
      -- lock() on the engine mutex get already holds
      let (granted, m) := mutexLock sys.mutex
      if granted then some { mutex := mutexUnlock m, phase := .release }
        -- (dead branch: the mutex is held throughout get's body)
      else some { mutex := m, phase := .innerAwait }
    else some { sys with phase := .release }
  | .innerAwait => none
    -- as in `batchStep`: the only unlock() is get's own finally,
    -- suspended behind this await
  | .release => some { mutex := mutexUnlock sys.mutex, phase := .done }
  | .done => none

def expiredGetRun : Nat → ExpiredGetSystem → ExpiredGetSystem
  | 0, sys => sys
  | n + 1, sys =>
    match expiredGetStep sys with
    | some t => expiredGetRun n t
    | none => sys

/-! ## Concrete scenario states used by the claim theorems

All scenarios run with encryption disabled and no access control, on the
empty file system `fsNone` (every `stat` fails) unless noted; no modelled
path stats a file in these runs. -/

/-- A file system on which every `stat` fails. -/
def fsNone : FS := fun _ => none

/-- C1: capacity 2, plenty of memory. -/
def lruCfg : CacheConfig := { maxEntries := 2, maxMemory := 1000000 }

/-- C1: `set("k1","v1")`, `set("k2","v2")`, `set("k3","v3")` at t=1,2,3
on an empty cache with `maxEntries = 2`. -/
def lruRun1 : Option ThrownError × EngineState :=
  set fsNone 1 "k1" "v1" none none { config := lruCfg }
def lruRun2 : Option ThrownError × EngineState :=
  set fsNone 2 "k2" "v2" none none lruRun1.2
def lruRun3 : Option ThrownError × EngineState :=
  set fsNone 3 "k3" "v3" none none lruRun2.2

/-- C2/C3: 300-byte memory cap. -/
def memCfg : CacheConfig := { maxEntries := 10, maxMemory := 300 }

/-- A 10-character value: approximate size 1*2 + 10*2 + 100 = 122 for a
one-character key. -/
def val10 : String := "aaaaaaaaaa"

/-- A 100-character value: approximate size 1*2 + 100*2 + 100 = 302. -/
def val100 : String := String.mk (List.replicate 100 'a')

/-- A 200-character value: approximate size 1*2 + 200*2 + 100 = 502. -/
def val200 : String := String.mk (List.replicate 200 'a')

/-- C2: store `"k" ↦ val10`, then replace it by `val100`. -/
def memRun1 : Option ThrownError × EngineState :=
  set fsNone 1 "k" val10 none none { config := memCfg }
def memRun2 : Option ThrownError × EngineState :=
  set fsNone 2 "k" val100 none none memRun1.2

/-- C3: store `"a" ↦ val10`, then try to store `"b" ↦ val200` (502 bytes
against a 300-byte cap). -/
def rejRun1 : Option ThrownError × EngineState :=
  set fsNone 1 "a" val10 none none { config := memCfg }
def rejRun2 : Option ThrownError × EngineState :=
  set fsNone 2 "b" val200 none none rejRun1.2

/-- C4/C8: version-aware configuration. -/
def verCfg : CacheConfig :=
  { maxEntries := 10, maxMemory := 1000000, versionAwareMode := true }

/-- C4: one versioned entry `doc@1` created at t=5. -/
def verRun1 : Option ThrownError × EngineState :=
  set fsNone 5 "doc" "v1" none (some { version := some "1" }) { config := verCfg }

/-- C4: the version-aware read with an options object but no `version`,
at t=100. -/
def verGet : GetOutcome × EngineState :=
  get fsNone 100 "doc" (some {}) verRun1.2

/-- C5: an entry with a 1-second TTL stored at t=0 … -/
def ttlRun1 : Option ThrownError × EngineState :=
  set fsNone 0 "k" "v" (some 1) none { config := { maxEntries := 10, maxMemory := 1000000 } }

/-- … read at t=5000, long past its expiry at t=1000. -/
def ttlGet : GetOutcome × EngineState :=
  get fsNone 5000 "k" none ttlRun1.2

/-- C8: versions 1, 2, 3 of base key `b` stored at t=1,2,3. -/
def oldVerRun1 : Option ThrownError × EngineState :=
  set fsNone 1 "b" "v1" none (some { version := some "1" }) { config := verCfg }
def oldVerRun2 : Option ThrownError × EngineState :=
  set fsNone 2 "b" "v2" none (some { version := some "2" }) oldVerRun1.2
def oldVerRun3 : Option ThrownError × EngineState :=
  set fsNone 3 "b" "v3" none (some { version := some "3" }) oldVerRun2.2

/-- C6/C9/C10: a roomy, non-version-aware engine. -/
def plainCfg : CacheConfig := { maxEntries := 10, maxMemory := 1000000 }

/-- C9: an engine with a pending single-flight future for `x` that will
resolve to `"42"`. -/
def pendingState : EngineState :=
  { config := plainCfg, pendingRequests := [("x", .loaded (some "42"))] }

/-- C10: `set` options that supply version metadata. -/
def metaOpts : SetOptions :=
  { dependencies := some ["d.txt"], sourceFile := some "f.txt" }

/-- C10: a file system on which every path was modified at t=999999. -/
def fsTouched : FS := fun _ => some 999999

/-! ## Helper lemmas about the JS `Map` model -/

theorem jsMapGet_eq_none_iff {α : Type} {l : List (String × α)} {k : String} :
    jsMapGet l k = none ↔ ∀ p ∈ l, p.1 ≠ k := by
  unfold jsMapGet
  constructor
  · intro h p hp
    cases hfind : l.find? (fun p => p.1 = k) with
    | none => simpa using (List.find?_eq_none.mp hfind) p hp
    | some q => rw [hfind] at h; exact absurd h (by simp)
  · intro h
    rw [List.find?_eq_none.mpr (fun p hp => by simpa using h p hp)]

theorem jsMapGet_cons {α : Type} {k' k : String} {v : α} {l : List (String × α)} :
    jsMapGet ((k', v) :: l) k = if k' = k then some v else jsMapGet l k := by
  unfold jsMapGet
  by_cases h : k' = k <;> simp [List.find?_cons, h]

theorem jsMapSet_of_get_none {α : Type} {l : List (String × α)} {k : String}
    (v : α) (h : jsMapGet l k = none) : jsMapSet l k v = l ++ [(k, v)] := by
  unfold jsMapSet
  have hany : l.any (fun p => p.1 = k) = false := by
    rw [List.any_eq_false]
    intro p hp
    simpa using jsMapGet_eq_none_iff.mp h p hp
  rw [hany]
  simp

theorem jsMapGet_append_right {α : Type} {l : List (String × α)} {k : String}
    (v : α) (h : jsMapGet l k = none) : jsMapGet (l ++ [(k, v)]) k = some v := by
  induction l with
  | nil => simp [jsMapGet, List.find?]
  | cons p t ih =>
    have hne : p.1 ≠ k := jsMapGet_eq_none_iff.mp h p (by simp)
    have ht : jsMapGet t k = none := by
      rw [jsMapGet_eq_none_iff]
      intro q hq
      exact jsMapGet_eq_none_iff.mp h q (by simp [hq])
    rw [List.cons_append]
    cases p with
    | mk k' v' =>
      rw [jsMapGet_cons, if_neg (by simpa using hne), ih ht]

theorem jsMapGet_filter_of_none {α : Type} {l : List (String × α)} {k : String}
    (pred : String × α → Bool) (h : jsMapGet l k = none) :
    jsMapGet (l.filter pred) k = none := by
  rw [jsMapGet_eq_none_iff]
  intro p hp
  exact jsMapGet_eq_none_iff.mp h p (List.mem_of_mem_filter hp)

theorem jsMapGet_filter_append {α : Type} {l : List (String × α)} {k : String}
    {v : α} (pred : String × α → Bool) (h : jsMapGet l k = none)
    (hp : pred (k, v) = true) :
    jsMapGet ((l ++ [(k, v)]).filter pred) k = some v := by
  rw [List.filter_append]
  induction l with
  | nil => simp [List.filter, hp, jsMapGet_cons]
  | cons p t ih =>
    have hne : p.1 ≠ k := jsMapGet_eq_none_iff.mp h p (by simp)
    have ht : jsMapGet t k = none := by
      rw [jsMapGet_eq_none_iff]
      intro q hq
      exact jsMapGet_eq_none_iff.mp h q (by simp [hq])
    rw [List.filter_cons]
    by_cases hpp : pred p = true
    · rw [if_pos hpp, List.cons_append]
      cases p with
      | mk k' v' => rw [jsMapGet_cons, if_neg (by simpa using hne)]; exact ih ht
    · rw [if_neg hpp]; exact ih ht

theorem jsMapGet_delete_self {α : Type} (l : List (String × α)) (k : String) :
    jsMapGet (jsMapDelete l k) k = none := by
  rw [jsMapGet_eq_none_iff]
  intro p hp
  have := List.of_mem_filter hp
  simpa using this

theorem jsMapGet_set_self {α : Type} (l : List (String × α)) (k : String) (v : α) :
    jsMapGet (jsMapSet l k v) k = some v := by
  unfold jsMapSet
  by_cases hany : l.any (fun p => p.1 = k) = true
  · rw [if_pos hany]
    induction l with
    | nil => simp at hany
    | cons p t ih =>
      rw [List.map_cons]
      by_cases hp : p.1 = k
      · rw [if_pos (by simpa using hp), jsMapGet_cons, if_pos rfl]
      · rw [if_neg (by simpa using hp)]
        cases p with
        | mk k' v' =>
          rw [jsMapGet_cons, if_neg (by simpa using hp)]
          exact ih (by simpa [hp] using hany)
  · rw [if_neg hany]
    apply jsMapGet_append_right
    rw [jsMapGet_eq_none_iff]
    intro p hp
    have := List.any_eq_false.mp (Bool.eq_false_iff.mpr hany) p hp
    simpa using this

/-! ## The LRU chain operations leave the entry map and statistics alone -/

theorem moveToHead_cache (k : String) (s : EngineState) :
    (moveToHead k s).cache = s.cache := by
  unfold moveToHead
  dsimp only
  repeat' (first | rfl | split)

theorem moveToHead_stats (k : String) (s : EngineState) :
    (moveToHead k s).stats = s.stats := by
  unfold moveToHead
  dsimp only
  repeat' (first | rfl | split)

theorem removeFromLRUChain_cache (k : String) (s : EngineState) :
    (removeFromLRUChain k s).cache = s.cache := by
  unfold removeFromLRUChain
  dsimp only
  repeat' (first | rfl | split)

theorem addToLRUChain_cache (k : String) (s : EngineState) :
    (addToLRUChain k s).cache = s.cache := by
  unfold addToLRUChain
  dsimp only
  repeat' (first | rfl | split)

/-- `deleteInternal` removes exactly the bindings of its key from the
entry map (and nothing when the key is absent). -/
theorem deleteInternal_cache (k : String) (st : EngineState) :
    ((deleteInternal k st).2).cache = jsMapDelete st.cache k := by
  unfold deleteInternal
  cases hget : jsMapGet st.cache k with
  | some e => simp [removeFromLRUChain_cache, jsMapDelete]
  | none =>
    simp only []
    unfold jsMapDelete
    rw [List.filter_eq_self.mpr]
    intro p hp
    simpa using jsMapGet_eq_none_iff.mp hget p hp

/-- Folding `deleteInternal` over a key list filters those keys out of
the entry map. -/
theorem foldl_deleteInternal_cache (ks : List String) (st : EngineState) :
    ((ks.foldl (fun st k => (deleteInternal k st).2) st).cache) =
      st.cache.filter (fun p => !(ks.contains p.1)) := by
  induction ks generalizing st with
  | nil => simp
  | cons k t ih =>
    rw [List.foldl_cons, ih, deleteInternal_cache]
    unfold jsMapDelete
    rw [List.filter_filter]
    apply List.filter_congr
    intro p _
    by_cases h : p.1 = k <;> simp [h]

/-- Membership is preserved by the JS sort. -/
theorem mem_sortStringsInsert (x a : String) (l : List String) :
    a ∈ sortStringsInsert x l ↔ a = x ∨ a ∈ l := by
  induction l with
  | nil => simp [sortStringsInsert]
  | cons y t ih =>
    unfold sortStringsInsert
    by_cases h : strLt y x = true
    · rw [if_pos h]
      rw [List.mem_cons, ih, List.mem_cons]
      tauto
    · rw [if_neg h]
      rw [List.mem_cons, List.mem_cons]

theorem mem_sortStrings (a : String) (l : List String) :
    a ∈ sortStrings l ↔ a ∈ l := by
  induction l with
  | nil => simp [sortStrings]
  | cons x t ih =>
    unfold sortStrings
    rw [mem_sortStringsInsert]
    simp [ih]

/-- Projecting keys commutes with filtering by a key predicate. -/
theorem mapFst_filter {α : Type} (q : String → Bool) (l : List (String × α)) :
    (l.filter (fun p => q p.1)).map Prod.fst = (l.map Prod.fst).filter q := by
  induction l with
  | nil => rfl
  | cons p t ih =>
    rw [List.map_cons, List.filter_cons, List.filter_cons]
    by_cases h : q p.1 = true
    · rw [if_pos h, if_pos h, List.map_cons, ih]
    · rw [if_neg h, if_neg h, ih]

theorem moveToHead_config (k : String) (s : EngineState) :
    (moveToHead k s).config = s.config := by
  unfold moveToHead
  dsimp only
  repeat' (first | rfl | split)

theorem addToLRUChain_config (k : String) (s : EngineState) :
    (addToLRUChain k s).config = s.config := by
  unfold addToLRUChain
  dsimp only
  repeat' (first | rfl | split)

theorem length_sortStringsInsert (x : String) (l : List String) :
    (sortStringsInsert x l).length = l.length + 1 := by
  induction l with
  | nil => rfl
  | cons y t ih =>
    unfold sortStringsInsert
    by_cases h : strLt y x = true
    · rw [if_pos h]
      simp [ih]
    · rw [if_neg h]
      simp

theorem length_sortStrings (l : List String) :
    (sortStrings l).length = l.length := by
  induction l with
  | nil => rfl
  | cons x t ih =>
    unfold sortStrings
    rw [length_sortStringsInsert, ih]
    simp

/-- `cleanupOldVersions` re-expressed through `oldVersionKeys` (the two
are definitionally the same filter). -/
theorem cleanupOldVersions_eq (b v : String) (s : EngineState) :
    cleanupOldVersions b v s =
      (if (oldVersionKeys b v s).length > 2 then
        ((sortStrings (oldVersionKeys b v s)).take ((oldVersionKeys b v s).length - 2)).foldl
          (fun st k => (deleteInternal k st).2) s
      else s) := rfl

/-- A `getResolved` that finds an entry carrying no file metadata never
consults the file system. -/
theorem getResolved_fs_irrelevant (fh : FS) (now' : Int) (b k : String)
    (sv : Bool) (t : EngineState) (e : CacheEntry)
    (hentry : jsMapGet t.cache k = some e)
    (hsf : e.sourceFile = none) (hdeps : e.dependencies = none) :
    getResolved fh now' b k sv t = getResolved fsNone now' b k sv t := by
  unfold getResolved
  rw [hentry]
  dsimp only
  rw [show validateFileTimestamp fh e = true by unfold validateFileTimestamp; rw [hsf]]
  rw [show validateFileTimestamp fsNone e = true by unfold validateFileTimestamp; rw [hsf]]
  rw [show checkDependencyChanges fh e = false by unfold checkDependencyChanges; rw [hdeps]]
  rw [show checkDependencyChanges fsNone e = false by unfold checkDependencyChanges; rw [hdeps]]

/-- Without an options argument, `get`'s version-aware branch and its
plain branch coincide. -/
theorem get_opts_none (fh : FS) (now' : Int) (key : String) (t : EngineState)
    (hac' : t.config.accessControl = none) :
    get fh now' key none t = getResolved fh now' key key false t := by
  unfold get
  rw [hac']
  dsimp only [validateAccessCheck]
  split <;> rfl

/-- A non-version-aware `get` on an absent key counts a miss and returns
the absent sentinel. -/
theorem get_miss (fh : FS) (now : Int) (key : String) (opts : Option GetOptions)
    (t : EngineState)
    (hac' : t.config.accessControl = none)
    (hmode' : t.config.versionAwareMode = false)
    (hmiss : jsMapGet t.cache key = none) :
    get fh now key opts t =
      (.absent, { t with stats := { t.stats with misses := t.stats.misses + 1 } }) := by
  unfold get
  rw [hac']
  dsimp only [validateAccessCheck]
  rw [if_neg (show ¬ t.config.versionAwareMode = true by simp [hmode'])]
  unfold getResolved
  rw [hmiss]

/-- `getWithProtection` when the loader resolves to `null`/`undefined`:
the negative cache gains a `nullValueTTL`-second record and the
single-flight registration is removed again. -/
theorem gwp_null_loader_eq (fh : FS) (now : Int) (k : String)
    (opts : Option GetOptions) (s : EngineState)
    (hmode : s.config.versionAwareMode = false)
    (hac : s.config.accessControl = none)
    (hcache : jsMapGet s.cache k = none)
    (hnvc : jsMapGet s.nullValueCache k = none)
    (hpend : jsMapGet s.pendingRequests k = none) :
    getWithProtection fh now k (.loaded none) opts s =
      (GetOutcome.absent,
       { s with
           stats := { s.stats with misses := s.stats.misses + 1 },
           pendingRequests := jsMapDelete (jsMapSet s.pendingRequests k (.loaded none)) k,
           nullValueCache := (jsMapSet s.nullValueCache k (now + s.nullValueTTL * 1000)).filter
             (fun p => ¬ now ≥ p.2) }, true) := by
  unfold getWithProtection
  rw [get_miss fh now k opts s hac hmode hcache]
  dsimp only
  rw [hnvc]
  unfold getWithProtectionLoad
  dsimp only
  rw [hpend]
  unfold loadDataWithMutex
  dsimp only
  rw [hcache]
  unfold cacheNullValue cleanupNullValueCache
  rfl

/-- `getWithProtection` when the loader throws: a 60-second negative
cache record, the error propagates, the registration is removed. -/
theorem gwp_failed_loader_eq (fh : FS) (now : Int) (k msg : String)
    (opts : Option GetOptions) (s : EngineState)
    (hmode : s.config.versionAwareMode = false)
    (hac : s.config.accessControl = none)
    (hcache : jsMapGet s.cache k = none)
    (hnvc : jsMapGet s.nullValueCache k = none)
    (hpend : jsMapGet s.pendingRequests k = none) :
    getWithProtection fh now k (.failed msg) opts s =
      (GetOutcome.thrown (.js msg),
       { s with
           stats := { s.stats with misses := s.stats.misses + 1 },
           pendingRequests := jsMapDelete (jsMapSet s.pendingRequests k (.failed msg)) k,
           nullValueCache := (jsMapSet s.nullValueCache k (now + 60 * 1000)).filter
             (fun p => ¬ now ≥ p.2) }, true) := by
  unfold getWithProtection
  rw [get_miss fh now k opts s hac hmode hcache]
  dsimp only
  rw [hnvc]
  unfold getWithProtectionLoad
  dsimp only
  rw [hpend]
  unfold loadDataWithMutex
  dsimp only
  rw [hcache]
  unfold cacheNullValue cleanupNullValueCache
  rfl

/-- `getWithProtection` that finds a pending single-flight future
returns that future's outcome without invoking its own loader. -/
theorem gwp_pending_eq (fh : FS) (now : Int) (k : String) (fut loader : LoaderResult)
    (opts : Option GetOptions) (s : EngineState)
    (hmode : s.config.versionAwareMode = false)
    (hac : s.config.accessControl = none)
    (hcache : jsMapGet s.cache k = none)
    (hnvc : jsMapGet s.nullValueCache k = none)
    (hpend : jsMapGet s.pendingRequests k = some fut) :
    getWithProtection fh now k loader opts s =
      (match fut with
       | .loaded (some v) =>
         (GetOutcome.value v,
          { s with stats := { s.stats with misses := s.stats.misses + 1 } }, false)
       | .loaded none =>
         (GetOutcome.absent,
          { s with stats := { s.stats with misses := s.stats.misses + 1 } }, false)
       | .failed msg =>
         (GetOutcome.thrown (.js msg),
          { s with
              stats := { s.stats with misses := s.stats.misses + 1 },
              pendingRequests := jsMapDelete s.pendingRequests k }, false)) := by
  unfold getWithProtection
  rw [get_miss fh now k opts s hac hmode hcache]
  dsimp only
  rw [hnvc]
  unfold getWithProtectionLoad
  dsimp only
  split
  · rename_i fut2 hp2
    rw [hpend] at hp2
    injection hp2 with he
    subst he
    cases fut with
    | failed msg => rfl
    | loaded v => cases v <;> rfl
  · next hp2 => rw [hpend] at hp2; cases hp2

/-- `getWithProtection` that finds an unexpired negative-cache record
short-circuits to absent without invoking its loader. -/
theorem gwp_nullcache_hit (fh : FS) (now : Int) (k : String)
    (loader : LoaderResult) (opts : Option GetOptions) (t : EngineState) (e : Int)
    (hmode' : t.config.versionAwareMode = false)
    (hac' : t.config.accessControl = none)
    (hcache' : jsMapGet t.cache k = none)
    (hnget : jsMapGet t.nullValueCache k = some e)
    (hcond : e ≠ 0 ∧ now < e) :
    getWithProtection fh now k loader opts t =
      (.absent, { t with stats := { t.stats with misses := t.stats.misses + 1 } }, false) := by
  unfold getWithProtection
  rw [get_miss fh now k opts t hac' hmode' hcache']
  dsimp only
  rw [hnget]
  dsimp only
  rw [if_pos hcond]

/-! ## Stepping lemmas for the deadlock machines -/

theorem batchRun_succ (n : Nat) (sys : BatchSystem) :
    batchRun (n + 1) sys =
      match batchStep sys with
      | some t => batchRun n t
      | none => sys := rfl

theorem batchRun_stuck (n : Nat) (sys : BatchSystem)
    (h : batchStep sys = none) : batchRun n sys = sys := by
  induction n with
  | zero => rfl
  | succ n ih => rw [batchRun_succ, h]

theorem expiredGetRun_succ (n : Nat) (sys : ExpiredGetSystem) :
    expiredGetRun (n + 1) sys =
      match expiredGetStep sys with
      | some t => expiredGetRun n t
      | none => sys := rfl

theorem expiredGetRun_stuck (n : Nat) (sys : ExpiredGetSystem)
    (h : expiredGetStep sys = none) : expiredGetRun n sys = sys := by
  induction n with
  | zero => rfl
  | succ n ih => rw [expiredGetRun_succ, h]

/-! ## Claim theorems -/

/-- Claim C1 (code bug).  With `maxEntries = 2` and the three distinct
keys `k1`, `k2`, `k3` inserted in order (non-version-aware, far below
the memory limit), every `set` succeeds, yet the surviving keys are
`{k1, k3}` — not the last two inserted `{k2, k3}` that the claim's LRU
law requires.  The capacity-driven eviction removed `k2`, the *most*
recently inserted key: `moveToHead`, called on the freshly added and
still unlinked node, takes its `undefined` `next` pointer for "this was
the tail", clears `lruTail`, and then re-points `lruTail` at the new
key itself, so `enforceMemoryLimitOptimized` walks from the wrong end of
the chain. -/
theorem c1_lru_eviction_removes_most_recent_key :
    lruRun1.1 = none ∧ lruRun2.1 = none ∧ lruRun3.1 = none ∧
    lruRun3.2.cache.map Prod.fst = ["k1", "k3"] ∧
    lruRun2.2.lruTail = some "k2" ∧
    ¬ lruRun3.2.cache.map Prod.fst = ["k2", "k3"] := by decide

/-- Claim C2 (code bug).  With `maxMemory = 300`, storing `"k"` at 122
bytes and then replacing it with a 302-byte value: both `set` calls
succeed (no `MEMORY_LIMIT_EXCEEDED`), yet afterwards
`stats.memoryUsage = 302 > 300 = maxMemory`.  The replacement path
subtracts the old entry's size from `stats.memoryUsage` *and* uses the
`newSize - oldSize` delta in `needsEviction`, so the limit check
under-counts by the old size and admits an over-limit entry. -/
theorem c2_successful_set_exceeds_memory_limit :
    memRun1.1 = none ∧ memRun2.1 = none ∧
    memRun2.2.stats.memoryUsage = 302 ∧
    memCfg.maxMemory = 300 ∧
    ¬ memRun2.2.stats.memoryUsage ≤ memRun2.2.config.maxMemory := by decide

/-- Claim C3 (code bug).  With `maxMemory = 300` and `"a" ↦ 122 bytes`
cached, `set("b", <502 bytes>)` fails with `MEMORY_LIMIT_EXCEEDED` — but
the failing call first evicted `"a"`: afterwards the map is empty,
`stats.totalEntries = 0` and `stats.memoryUsage = 0`, where the claim
requires the pre-call state (`{"a"}`, 1 entry, 122 bytes) back
untouched.  `enforceMemoryLimitOptimized` deletes its victims before
discovering that the limit still cannot be met, and nothing rolls the
deletions back. -/
theorem c3_failed_set_leaves_cache_mutated :
    rejRun1.1 = none ∧
    rejRun1.2.cache.map Prod.fst = ["a"] ∧
    rejRun1.2.stats.memoryUsage = 122 ∧
    rejRun2.1 = some (.cacheErr .MEMORY_LIMIT_EXCEEDED) ∧
    rejRun2.2.cache = [] ∧
    rejRun2.2.stats.memoryUsage = 0 ∧
    ¬ rejRun2.2 = rejRun1.2 := by decide

/-- Claim C4 counterexample.  Version-aware mode, one entry `doc@1`
stored at t=5; `get("doc", {})` (options present, no `version`) at t=100
resolves through `getLatestVersionEntry` and returns the stored value —
but the engine state is *bit-for-bit unchanged*: `stats.hits` stays 0,
`lastAccessed` stays 5, and nothing moves in the LRU chain, where the
claim requires a recorded hit, a refreshed `lastAccessed`, and a move to
the LRU head. -/
theorem c4_latest_version_get_records_no_hit :
    verRun1.1 = none ∧
    verGet.1 = .value "v1" ∧
    verGet.2 = verRun1.2 ∧
    verRun1.2.stats.hits = 0 ∧
    (jsMapGet verRun1.2.cache "doc@1").map (fun e => e.lastAccessed) = some 5 ∧
    ¬ verGet.2.stats.hits = verRun1.2.stats.hits + 1 := by decide

/-- Claim C5 (code bug).  A `get` whose entry fails a freshness check
never deletes the entry, counts no miss and returns nothing at all: it
deadlocks.  The freshness-failure branch runs `await this.delete(finalKey)`,
and the public `delete` re-acquires the engine's non-reentrant
`AsyncMutex` that `get` is still holding — `lock()` enqueues a waiter
that only `get`'s own epilogue would resume.  Formally: the operational
machine for such a `get` never reaches `done` (while a `get` whose
freshness checks pass completes in three steps), and the sequential
embedding maps the call to `blocked` with the entry still cached and the
miss counter untouched. -/
theorem c5_freshness_failure_deadlocks_instead_of_miss :
    (∀ n : Nat, (expiredGetRun n (expiredGetInit true)).phase ≠ .done) ∧
    (expiredGetRun 3 (expiredGetInit false)).phase = .done ∧
    ttlRun1.1 = none ∧
    ttlGet.1 = .blocked ∧
    ttlGet.2 = ttlRun1.2 ∧
    jsMapHas ttlGet.2.cache "k" = true ∧
    ttlGet.2.stats.misses = 0 := by
  refine ⟨?_, by decide, by decide, by decide, by decide, by decide, by decide⟩
  intro n
  have h1 : expiredGetStep (expiredGetInit true) =
      some ⟨⟨true, 0⟩, .inspect true⟩ := rfl
  have h2 : expiredGetStep ⟨⟨true, 0⟩, .inspect true⟩ =
      some ⟨⟨true, 1⟩, .innerAwait⟩ := rfl
  have h3 : expiredGetStep ⟨⟨true, 1⟩, .innerAwait⟩ = none := rfl
  match n with
  | 0 => decide
  | 1 => decide
  | (n + 2) =>
    have : expiredGetRun (n + 2) (expiredGetInit true) = ⟨⟨true, 1⟩, .innerAwait⟩ := by
      rw [expiredGetRun_succ, h1]
      dsimp only
      rw [expiredGetRun_succ, h2]
      dsimp only
      exact expiredGetRun_stuck n _ h3
    rw [this]
    decide

/-- Claim C7 (code bug).  `getMany(keys)` (and identically
`deleteMany(keys)`) on any non-empty key list never terminates: the
batch holds the engine's non-reentrant `AsyncMutex` for the whole batch
and then `await`s `this.get(key)` (resp. `this.delete(key)`), whose own
`runExclusive` enqueues on the very same mutex; the waiter can only be
resumed by the batch's own `finally { unlock() }`, which sits behind the
suspended body.  The operational machine reaches `innerAwait` after two
steps and is stuck there for every schedule length, while the
empty-list batch completes in three steps. -/
theorem c7_getMany_nonempty_deadlocks :
    (∀ (k : String) (keys : List String) (n : Nat),
      (batchRun n (getManyInit (k :: keys))).phase ≠ .done) ∧
    (batchRun 3 (getManyInit [])).phase = .done := by
  refine ⟨?_, by decide⟩
  intro k keys n
  have h1 : batchStep (getManyInit (k :: keys)) =
      some ⟨⟨true, 0⟩, .body (k :: keys)⟩ := rfl
  have h2 : batchStep ⟨⟨true, 0⟩, .body (k :: keys)⟩ =
      some ⟨⟨true, 1⟩, .innerAwait (k :: keys)⟩ := rfl
  have h3 : batchStep ⟨⟨true, 1⟩, .innerAwait (k :: keys)⟩ = none := rfl
  match n with
  | 0 => simp [batchRun, getManyInit]
  | 1 =>
    rw [batchRun_succ, h1]
    dsimp only
    simp [batchRun]
  | (n + 2) =>
    have : batchRun (n + 2) (getManyInit (k :: keys)) =
        ⟨⟨true, 1⟩, .innerAwait (k :: keys)⟩ := by
      rw [batchRun_succ, h1]
      dsimp only
      rw [batchRun_succ, h2]
      dsimp only
      exact batchRun_stuck n _ h3
    rw [this]
    simp

/-- Claim C8 counterexample.  Version-aware mode; versions `1`, `2`, `3`
of base key `b` are stored in order.  After the third `set` — whose
scheduled cleanup ran with current version `3` — the cache holds *three*
effective keys `b@1`, `b@2`, `b@3`, not the two most recent that the
claim requires: the cleanup excludes the current version's key from its
candidate list and only deletes when more than two *other* versions
exist (and then by lexicographic sort, not by `created`). -/
theorem c8_cleanup_keeps_three_versions :
    oldVerRun1.1 = none ∧ oldVerRun2.1 = none ∧ oldVerRun3.1 = none ∧
    oldVerRun3.2.cache.map Prod.fst = ["b@1", "b@2", "b@3"] ∧
    ¬ (oldVerRun3.2.cache.map Prod.fst).length = 2 := by decide

/-- Claim C4, amended.  In version-aware mode, a `get` with an options
object but no `version` — given that the dead constructed key
`key@Date.now()` is absent and that the latest matching entry (if any)
passes the dependency re-check — returns the *raw stored value* of the
entry with the largest `created` (absent when none matches) and leaves
the engine state entirely unchanged: no hit or miss is recorded,
`lastAccessed` is not refreshed, nothing moves in the LRU chain, and no
decryption step runs on this path. -/
theorem c4_amended_latest_version_get_is_bookkeeping_free
    (fh : FS) (now : Int) (key : String) (o : GetOptions) (s : EngineState)
    (hmode : s.config.versionAwareMode = true)
    (hac : s.config.accessControl = none)
    (hver : o.version = none)
    (hmiss : jsMapHas s.cache (createVersionedKey key (toString now)) = false)
    (hdep : ∀ p, latestVersionScan key s.cache = some p →
      (p.2.dependencies.isSome && checkDependencyChanges fh p.2) = false) :
    get fh now key (some o) s =
      ((match latestVersionScan key s.cache with
        | some p => GetOutcome.value p.2.value
        | none => GetOutcome.absent), s) := by
  unfold get
  rw [hac]
  simp only [validateAccessCheck, hmode, hver, hmiss, Option.getD_none, if_true,
    Bool.not_false, ite_true]
  unfold getLatestVersionEntry
  cases hscan : latestVersionScan key s.cache with
  | some p =>
    dsimp only
    rw [if_neg (by rw [hdep p hscan]; exact Bool.false_ne_true)]
  | none => rfl

/-- Witness for the amended C4 at the concrete scenario: the version-aware
read of `doc` (options `{}`) at t=100 on the cache holding `doc@1`. -/
theorem c4_amended_latest_version_get_is_bookkeeping_free_witness :
    get fsNone 100 "doc" (some {}) verRun1.2 =
      ((match latestVersionScan "doc" verRun1.2.cache with
        | some p => GetOutcome.value p.2.value
        | none => GetOutcome.absent), verRun1.2) := by
  refine c4_amended_latest_version_get_is_bookkeeping_free fsNone 100 "doc" {} verRun1.2
    (by decide) (by decide) rfl (by decide) ?_
  intro p hp
  rw [show latestVersionScan "doc" verRun1.2.cache =
    some ("doc@1",
      { value := "v1", created := 5, lastAccessed := 5, ttl := some 3600, size := 114,
        encrypted := false, version := some "1", hash := some "v1",
        dependencies := some [], sourceFile := none, fileTimestamp := none })
    from by decide] at hp
  injection hp with he
  subst he
  decide

/-- Claim C6 (confirmed).  From a state whose main cache, negative cache
and single-flight registry are empty at `k` (non-version-aware, no
access control, default `nullValueTTL = 300`): a `getWithProtection`
whose loader resolves to absent at time `now` returns absent, records a
negative-cache entry expiring at `now + 300 * 1000`, and leaves no
pending future; any later `getWithProtection` issued strictly before
that expiry returns absent *without invoking its loader* (whatever that
loader is); a `getWithProtection` whose loader throws propagates the
error, records a 60-second negative-cache entry, and also leaves no
pending future. -/
theorem c6_negative_cache_short_circuit (fh fh2 : FS) (now t2 : Int) (k msg : String)
    (loader2 : LoaderResult) (opts opts2 : Option GetOptions) (s : EngineState)
    (hmode : s.config.versionAwareMode = false)
    (hac : s.config.accessControl = none)
    (hcache : jsMapGet s.cache k = none)
    (hnvc : jsMapGet s.nullValueCache k = none)
    (hpend : jsMapGet s.pendingRequests k = none)
    (httl : s.nullValueTTL = 300)
    (hnow : 0 ≤ now)
    (ht2 : t2 < now + 300 * 1000) :
    (getWithProtection fh now k (.loaded none) opts s).1 = .absent ∧
    (getWithProtection fh now k (.loaded none) opts s).2.2 = true ∧
    jsMapGet (getWithProtection fh now k (.loaded none) opts s).2.1.nullValueCache k
      = some (now + 300 * 1000) ∧
    jsMapGet (getWithProtection fh now k (.loaded none) opts s).2.1.pendingRequests k = none ∧
    ((getWithProtection fh2 t2 k loader2 opts2
        (getWithProtection fh now k (.loaded none) opts s).2.1).1 = .absent ∧
     (getWithProtection fh2 t2 k loader2 opts2
        (getWithProtection fh now k (.loaded none) opts s).2.1).2.2 = false) ∧
    ((getWithProtection fh now k (.failed msg) opts s).1 = .thrown (.js msg) ∧
     (getWithProtection fh now k (.failed msg) opts s).2.2 = true ∧
     jsMapGet (getWithProtection fh now k (.failed msg) opts s).2.1.nullValueCache k
       = some (now + 60 * 1000) ∧
     jsMapGet (getWithProtection fh now k (.failed msg) opts s).2.1.pendingRequests k = none) := by
  have h1 := gwp_null_loader_eq fh now k opts s hmode hac hcache hnvc hpend
  have h3 := gwp_failed_loader_eq fh now k msg opts s hmode hac hcache hnvc hpend
  rw [httl] at h1
  have hNget : jsMapGet ((jsMapSet s.nullValueCache k (now + 300 * 1000)).filter
      (fun p => ¬ now ≥ p.2)) k = some (now + 300 * 1000) := by
    rw [jsMapSet_of_get_none _ hnvc]
    exact jsMapGet_filter_append _ hnvc (by simp)
  have hNget60 : jsMapGet ((jsMapSet s.nullValueCache k (now + 60 * 1000)).filter
      (fun p => ¬ now ≥ p.2)) k = some (now + 60 * 1000) := by
    rw [jsMapSet_of_get_none _ hnvc]
    exact jsMapGet_filter_append _ hnvc (by simp)
  refine ⟨by rw [h1], by rw [h1], by rw [h1]; exact hNget,
          by rw [h1]; exact jsMapGet_delete_self _ _, ?_, ?_⟩
  · have h2 := gwp_nullcache_hit fh2 t2 k loader2 opts2
      ((getWithProtection fh now k (.loaded none) opts s).2.1) (now + 300 * 1000)
      (by rw [h1]; exact hmode) (by rw [h1]; exact hac) (by rw [h1]; exact hcache)
      (by rw [h1]; exact hNget) ⟨by omega, ht2⟩
    rw [h2]
    exact ⟨rfl, rfl⟩
  · exact ⟨by rw [h3], by rw [h3], by rw [h3]; exact hNget60,
      by rw [h3]; exact jsMapGet_delete_self _ _⟩

/-- Witness for C6 at a concrete scenario: key `x` on a fresh engine,
null-loader at t=0, retry with a throwing loader at t=5 (short-circuited
without invoking it), and a throwing loader at t=0 from the fresh
state. -/
theorem c6_negative_cache_short_circuit_witness :
    (getWithProtection fsNone 0 "x" (.loaded none) none { config := plainCfg }).1 = .absent ∧
    jsMapGet (getWithProtection fsNone 0 "x" (.loaded none) none
      { config := plainCfg }).2.1.nullValueCache "x" = some (0 + 300 * 1000) ∧
    ((getWithProtection fsNone 5 "x" (.failed "boom") none
        (getWithProtection fsNone 0 "x" (.loaded none) none { config := plainCfg }).2.1).1
        = .absent ∧
     (getWithProtection fsNone 5 "x" (.failed "boom") none
        (getWithProtection fsNone 0 "x" (.loaded none) none { config := plainCfg }).2.1).2.2
        = false) ∧
    (getWithProtection fsNone 0 "x" (.failed "boom") none { config := plainCfg }).1
      = .thrown (.js "boom") := by
  have h := c6_negative_cache_short_circuit fsNone fsNone 0 5 "x" "boom" (.failed "boom")
    none none { config := plainCfg } (by decide) (by decide) (by decide) (by decide)
    (by decide) (by decide) (by decide) (by decide)
  exact ⟨h.1, h.2.2.1, h.2.2.2.2.1, h.2.2.2.2.2.1⟩

/-- Claim C8, amended.  The old-version cleanup, which runs *before* the
new version is inserted, considers only the effective keys of base `b`
that do not carry the current version: when at most two such keys exist
it deletes nothing, and otherwise it deletes exactly the
`|candidates| − 2` lexicographically smallest candidates (JS `sort()`
order, not `created` order), keeping the last two.  Together with the
subsequently inserted current version, up to three effective keys for
`b` therefore survive a `set`. -/
theorem c8_amended_cleanup_keeps_two_old_versions (b v : String) (s : EngineState) :
    ((cleanupOldVersions b v s).cache.map Prod.fst) =
      (s.cache.map Prod.fst).filter (fun k => !((oldVersionDoomed b v s).contains k)) ∧
    (∀ kd, kd ∈ oldVersionDoomed b v s →
      kd ∈ oldVersionKeys b v s ∧ strStartsWith kd (b ++ "@") = true ∧
        strEndsWith kd ("@" ++ v) = false) ∧
    ((oldVersionKeys b v s).length ≤ 2 → cleanupOldVersions b v s = s) ∧
    (oldVersionDoomed b v s).length =
      (if (oldVersionKeys b v s).length > 2 then (oldVersionKeys b v s).length - 2 else 0) := by
  refine ⟨?_, ?_, ?_, ?_⟩
  · rw [cleanupOldVersions_eq]
    unfold oldVersionDoomed
    by_cases hlen : (oldVersionKeys b v s).length > 2
    · rw [if_pos hlen, if_pos hlen, foldl_deleteInternal_cache]
      exact mapFst_filter
        (fun k => !(((sortStrings (oldVersionKeys b v s)).take
          ((oldVersionKeys b v s).length - 2)).contains k)) s.cache
    · rw [if_neg hlen, if_neg hlen]
      simp
  · intro kd hkd
    unfold oldVersionDoomed at hkd
    by_cases hlen : (oldVersionKeys b v s).length > 2
    · rw [if_pos hlen] at hkd
      have h1 : kd ∈ sortStrings (oldVersionKeys b v s) := List.mem_of_mem_take hkd
      have h2 : kd ∈ oldVersionKeys b v s := (mem_sortStrings _ _).mp h1
      refine ⟨h2, ?_, ?_⟩
      · unfold oldVersionKeys at h2
        have := List.of_mem_filter h2
        simp at this
        exact this.1
      · unfold oldVersionKeys at h2
        have := List.of_mem_filter h2
        simp at this
        exact this.2
    · rw [if_neg hlen] at hkd
      exact absurd hkd (by simp)
  · intro hle
    rw [cleanupOldVersions_eq]
    rw [if_neg (by omega)]
  · unfold oldVersionDoomed
    by_cases hlen : (oldVersionKeys b v s).length > 2
    · rw [if_pos hlen, if_pos hlen, List.length_take, length_sortStrings]
      omega
    · rw [if_neg hlen, if_neg hlen]
      rfl

/-- Witness for the amended C8: a cleanup for base `b`, current version
`4`, on the cache holding `b@1`, `b@2`, `b@3` deletes exactly `b@1`. -/
theorem c8_amended_cleanup_keeps_two_old_versions_witness :
    (cleanupOldVersions "b" "4" oldVerRun3.2).cache.map Prod.fst = ["b@2", "b@3"] ∧
    (oldVersionDoomed "b" "4" oldVerRun3.2).length = 1 := by
  have h := c8_amended_cleanup_keeps_two_old_versions "b" "4" oldVerRun3.2
  constructor
  · rw [h.1]; decide
  · rw [h.2.2.2]; decide

/-- Claim C9 (confirmed, sequential rendition).  A `getWithProtection`
that starts while a future for `k` is pending (and `k` misses the main
and negative caches) never invokes its own loader and receives exactly
the pending future's outcome: the value, absent, or the propagated
rejection.  For a successful future the registration survives the call,
so arbitrarily many such callers in a row still perform zero loader
invocations in total.  (In the JS runtime the segment from the
negative-cache check to the registration contains no `await`, so
arriving callers genuinely observe the registered future; the
interleaving-freedom of that segment is the only part not expressible in
this sequential model.) -/
theorem c9_pending_future_coalesces_without_loader
    (fh : FS) (now : Int) (k : String) (fut loader : LoaderResult)
    (opts : Option GetOptions) (s : EngineState)
    (hmode : s.config.versionAwareMode = false)
    (hac : s.config.accessControl = none)
    (hcache : jsMapGet s.cache k = none)
    (hnvc : jsMapGet s.nullValueCache k = none)
    (hpend : jsMapGet s.pendingRequests k = some fut) :
    (getWithProtection fh now k loader opts s).2.2 = false ∧
    (getWithProtection fh now k loader opts s).1 =
      (match fut with
       | .loaded (some v) => GetOutcome.value v
       | .loaded none => GetOutcome.absent
       | .failed msg => GetOutcome.thrown (.js msg)) ∧
    (∀ (v? : Option String), fut = .loaded v? →
      jsMapGet (getWithProtection fh now k loader opts s).2.1.pendingRequests k = some fut) ∧
    (∀ (n : Nat) (v? : Option String), fut = .loaded v? →
      (gwpRepeat fh now k loader opts n s).2 = 0) := by
  have h := gwp_pending_eq fh now k fut loader opts s hmode hac hcache hnvc hpend
  refine ⟨?_, ?_, ?_, ?_⟩
  · rw [h]; cases fut with
    | failed msg => rfl
    | loaded v => cases v <;> rfl
  · rw [h]; cases fut with
    | failed msg => rfl
    | loaded v => cases v <;> rfl
  · intro v? hv
    subst hv
    rw [h]
    cases v? <;> exact hpend
  · have main : ∀ (n : Nat) (t : EngineState) (v? : Option String),
        fut = .loaded v? →
        t.config.versionAwareMode = false →
        t.config.accessControl = none →
        jsMapGet t.cache k = none →
        jsMapGet t.nullValueCache k = none →
        jsMapGet t.pendingRequests k = some fut →
        (gwpRepeat fh now k loader opts n t).2 = 0 := by
      intro n
      induction n with
      | zero => intro t v? _ _ _ _ _ _; rfl
      | succ n ih =>
        intro t v? hv hm ha hc hn hp
        have ht := gwp_pending_eq fh now k fut loader opts t hm ha hc hn hp
        unfold gwpRepeat
        rw [ht]
        subst hv
        cases v? with
        | none =>
          dsimp only
          simpa using ih { t with stats := { t.stats with misses := t.stats.misses + 1 } }
            none rfl hm ha hc hn hp
        | some v =>
          dsimp only
          simpa using ih { t with stats := { t.stats with misses := t.stats.misses + 1 } }
            (some v) rfl hm ha hc hn hp
    intro n v? hv
    exact main n s v? hv hmode hac hcache hnvc hpend

/-- Witness for C9: five sequential callers with their own (throwing!)
loader against a pending future resolving to `"42"`: each receives
`"42"`, no loader ever runs. -/
theorem c9_pending_future_coalesces_without_loader_witness :
    (getWithProtection fsNone 0 "x" (.failed "mine") none pendingState).2.2 = false ∧
    (getWithProtection fsNone 0 "x" (.failed "mine") none pendingState).1 = .value "42" ∧
    (gwpRepeat fsNone 0 "x" (.failed "mine") none 5 pendingState).2 = 0 := by
  have h := c9_pending_future_coalesces_without_loader fsNone 0 "x" (.loaded (some "42"))
    (.failed "mine") none pendingState (by decide) (by decide) (by decide) (by decide)
    (by decide)
  exact ⟨h.1, by rw [h.2.1], h.2.2.2 5 (some "42") rfl⟩

/-- Claim C10 (confirmed).  When `versionAwareMode` is false or `set`
receives no options argument (here under conditions where no eviction
triggers), the stored entry carries no `version`, `hash`,
`dependencies`, `sourceFile` or `fileTimestamp` — even if the options
supplied them — and a subsequent `get` of that key behaves identically
on every file system: only the TTL check applies, and before expiry the
stored value is returned regardless of any file modifications. -/
theorem c10_plain_entries_have_no_version_metadata
    (fh fh' : FS) (now now' : Int) (key value : String) (ttl : Option Int)
    (opts : Option SetOptions) (s : EngineState)
    (hcase : s.config.versionAwareMode = false ∨ opts = none)
    (hac : s.config.accessControl = none)
    (hkey : ¬ key = "")
    (hfresh : jsMapGet s.cache key = none)
    (hmem : ¬ s.stats.memoryUsage + approximateMemoryUsage key value > s.config.maxMemory)
    (hent : ¬ s.cache.length ≥ s.config.maxEntries) :
    (set fh now key value ttl opts s).1 = none ∧
    jsMapGet (set fh now key value ttl opts s).2.cache key =
      some { value := value, created := now, lastAccessed := now,
             ttl := some (ttl.getD s.config.defaultTTL),
             size := approximateMemoryUsage key value, encrypted := false,
             version := none, hash := none, dependencies := none,
             sourceFile := none, fileTimestamp := none } ∧
    (get fh' now' key none (set fh now key value ttl opts s).2 =
      get fsNone now' key none (set fh now key value ttl opts s).2) ∧
    (¬ now' > now + (ttl.getD s.config.defaultTTL) * 1000 →
      (get fh' now' key none (set fh now key value ttl opts s).2).1 = .value value) := by
  have hev : needsEviction (approximateMemoryUsage key value) false s = false := by
    unfold needsEviction
    simp [hmem, hent]
  have hhas : jsMapHas s.cache key = false := by
    unfold jsMapHas; rw [hfresh]; rfl
  have hset : set fh now key value ttl opts s =
      (none,
        let entry : CacheEntry :=
          { value := value, created := now, lastAccessed := now,
            ttl := some (ttl.getD s.config.defaultTTL),
            size := approximateMemoryUsage key value, encrypted := false }
        let s1 := addToLRUChain key s
        let s2 := { s1 with cache := jsMapSet s1.cache key entry }
        let s3 := moveToHead key s2
        let s4 := { s3 with stats := { s3.stats with totalEntries := s3.cache.length } }
        { s4 with stats := { s4.stats with
            memoryUsage := s4.stats.memoryUsage + approximateMemoryUsage key value } }) := by
    unfold set
    rw [hac]
    dsimp only [validateAccessCheck]
    rw [if_neg hkey]
    rcases hcase with hmode | hopt
    · simp [hmode, hhas, hfresh, hev]
    · cases hm : s.config.versionAwareMode with
      | false => simp [hm, hopt, hhas, hfresh, hev]
      | true => simp [hm, hopt, hhas, hfresh, hev]
  have h1 : (set fh now key value ttl opts s).1 = none := by rw [hset]
  have hc : (set fh now key value ttl opts s).2.cache =
      jsMapSet s.cache key
        { value := value, created := now, lastAccessed := now,
          ttl := some (ttl.getD s.config.defaultTTL),
          size := approximateMemoryUsage key value, encrypted := false } := by
    rw [hset]
    dsimp only
    rw [moveToHead_cache]
    dsimp only
    rw [addToLRUChain_cache]
  have hconf : (set fh now key value ttl opts s).2.config = s.config := by
    rw [hset]
    dsimp only
    rw [moveToHead_config]
    dsimp only
    rw [addToLRUChain_config]
  have hXac : (set fh now key value ttl opts s).2.config.accessControl = none := by
    rw [hconf]; exact hac
  have hentry : jsMapGet (set fh now key value ttl opts s).2.cache key =
      some { value := value, created := now, lastAccessed := now,
             ttl := some (ttl.getD s.config.defaultTTL),
             size := approximateMemoryUsage key value, encrypted := false } := by
    rw [hc]; exact jsMapGet_set_self _ _ _
  refine ⟨h1, hentry, ?_, ?_⟩
  · rw [get_opts_none fh' now' key _ hXac, get_opts_none fsNone now' key _ hXac]
    exact getResolved_fs_irrelevant fh' now' key key false _ _ hentry rfl rfl
  · intro hexp
    rw [get_opts_none fh' now' key _ hXac]
    unfold getResolved
    split
    · next hmg => rw [hmg] at hentry; exact absurd hentry (by simp)
    · next e hmg =>
      rw [hmg] at hentry
      injection hentry with he
      subst he
      rw [if_neg (by
        unfold isExpired
        rw [hconf]
        dsimp only [Option.getD_some]
        simpa using hexp)]
      rw [show validateFileTimestamp fh'
          { value := value, created := now, lastAccessed := now,
            ttl := some (ttl.getD s.config.defaultTTL),
            size := approximateMemoryUsage key value, encrypted := false } = true by
        unfold validateFileTimestamp; rfl]
      simp

/-- Witness for C10: `set("p","w")` with source-file and dependency
options on a non-version-aware engine stores a metadata-free entry, and
the read still hits at t=50 on a file system where every path was
modified after the insertion. -/
theorem c10_plain_entries_have_no_version_metadata_witness :
    (set fsNone 1 "p" "w" none (some metaOpts) { config := plainCfg }).1 = none ∧
    jsMapGet (set fsNone 1 "p" "w" none (some metaOpts)
        { config := plainCfg }).2.cache "p" =
      some { value := "w", created := 1, lastAccessed := 1, ttl := some 3600,
             size := approximateMemoryUsage "p" "w", encrypted := false,
             version := none, hash := none, dependencies := none,
             sourceFile := none, fileTimestamp := none } ∧
    (get fsTouched 50 "p" none
      (set fsNone 1 "p" "w" none (some metaOpts) { config := plainCfg }).2).1 = .value "w" := by
  have h := c10_plain_entries_have_no_version_metadata fsNone fsTouched 1 50 "p" "w"
    none (some metaOpts) { config := plainCfg } (Or.inl (by decide)) (by decide)
    (by decide) (by decide) (by decide) (by decide)
  exact ⟨h.1, h.2.1, h.2.2.2 (by decide)⟩

end McpCache
